import Mathlib

/-!
Verification of the `dl` concurrent HTTP downloader (mgomes/dl).

This file gives a shallow embedding, in Lean 4, of the parts of the Go
source that the verified properties concern:

* `calculatePartBoundary` (src/main.go) — the range planner;
* `fetchPartOnce` (src/main.go) — a single part-fetch attempt: resume
  offset computation, the Range header, the response status check;
* `fetchPartRange` (src/main.go) — the retry controller with exponential
  backoff;
* `loadProgress` / `saveProgress` (src/progress.go) — the progress
  journal load/save logic;
* `rateLimitedWriter.Write` (writers file) — the chunked, token-bucket
  rate-limited writer;
* `parseBandwidthLimit` (src/main.go) — the bandwidth limit parser.

Go `uint64` values are modelled as `Nat` together with explicit wrap-around
(`% 2^64`) at the operations where the Go code can overflow or underflow.
Stateful code is modelled by explicit state passing plus an effect trace
(`FsEffect`, `RetryEvent`), so that the order and presence of side effects
(file writes, deletions, sleeps, HTTP attempts) are visible to theorems.
-/

namespace DL

/-- The modulus `2^64` of Go `uint64` arithmetic. -/
def U64MOD : Nat := 2 ^ 64

/-- Go `uint64` subtraction `a - b` (wrap-around), for `a, b < U64MOD`. -/
def wsub (a b : Nat) : Nat := (a + U64MOD - b % U64MOD) % U64MOD

/-! ## Range planner: `calculatePartBoundary` (src/main.go lines 1011-1023)

```go
func (dl *download) calculatePartBoundary(part int) (uint64, uint64) {
    chunkSize := dl.filesize / uint64(dl.boost)
    startByte := uint64(part) * chunkSize
    var endByte uint64
    if part == dl.boost-1 {
        endByte = dl.filesize - 1
    } else {
        endByte = startByte + chunkSize - 1
    }
    return startByte, endByte
}
```

The caller guarantees `boost ≥ 1` (main rejects `boost < 1`), so the Go
division never divides by zero. -/

/-- The planner's `(startByte, endByte)` for part index `part`, with Go
`uint64` wrap-around arithmetic made explicit. -/
def calculatePartBoundary (filesize boost part : Nat) : Nat × Nat :=
  let chunkSize := filesize / boost
  let startByte := (part * chunkSize) % U64MOD
  let endByte :=
    if part = boost - 1 then wsub filesize 1
    else wsub ((startByte + chunkSize) % U64MOD) 1
  (startByte, endByte)

/-- Start byte of part `i` of the plan for `(filesize, boost)`. -/
def partStart (filesize boost i : Nat) : Nat :=
  (calculatePartBoundary filesize boost i).1

/-- End byte (inclusive) of part `i` of the plan for `(filesize, boost)`. -/
def partEnd (filesize boost i : Nat) : Nat :=
  (calculatePartBoundary filesize boost i).2

/-- Byte `b` falls in the (inclusive) range of part `i`. -/
def inPart (filesize boost i b : Nat) : Prop :=
  partStart filesize boost i ≤ b ∧ b ≤ partEnd filesize boost i

instance (filesize boost i b : Nat) : Decidable (inPart filesize boost i b) := by
  unfold inPart; infer_instance

theorem wsub_one (a : Nat) (h1 : 1 ≤ a) (h2 : a < U64MOD) : wsub a 1 = a - 1 := by
  unfold wsub U64MOD at *
  have h3 : 1 % 2 ^ 64 = 1 := by norm_num
  rw [h3]
  have h4 : a + 2 ^ 64 - 1 = (a - 1) + 2 ^ 64 := by omega
  rw [h4, Nat.add_mod_right, Nat.mod_eq_of_lt (by omega)]

theorem chunk_pos (fs N : Nat) (h1 : 1 ≤ N) (hN : N ≤ fs) : 1 ≤ fs / N :=
  (Nat.one_le_div_iff (by omega)).mpr hN

theorem chunk_mul_le (fs N i : Nat) (hi : i ≤ N) : i * (fs / N) ≤ fs :=
  le_trans (Nat.mul_le_mul_right _ hi) (by rw [mul_comm]; exact Nat.div_mul_le_self fs N)

theorem partStart_eq (fs N : Nat) (hfs : fs < U64MOD) (i : Nat) (hi : i < N) :
    partStart fs N i = i * (fs / N) := by
  unfold partStart calculatePartBoundary
  simp only
  exact Nat.mod_eq_of_lt (lt_of_le_of_lt (chunk_mul_le fs N i (by omega)) hfs)

theorem partEnd_mid (fs N : Nat) (h1 : 1 ≤ N) (hN : N ≤ fs) (hfs : fs < U64MOD)
    (i : Nat) (hi : i + 1 < N) :
    partEnd fs N i = (i + 1) * (fs / N) - 1 := by
  have hc : 1 ≤ fs / N := chunk_pos fs N h1 hN
  have hle : (i + 1) * (fs / N) ≤ fs := chunk_mul_le fs N (i + 1) (by omega)
  have hlt : (i + 1) * (fs / N) < U64MOD := lt_of_le_of_lt hle hfs
  have hstart : i * (fs / N) < U64MOD :=
    lt_of_le_of_lt (chunk_mul_le fs N i (by omega)) hfs
  unfold partEnd calculatePartBoundary
  simp only
  rw [if_neg (by omega : ¬ i = N - 1)]
  rw [Nat.mod_eq_of_lt hstart]
  have hsum : i * (fs / N) + fs / N = (i + 1) * (fs / N) := by ring
  rw [hsum, Nat.mod_eq_of_lt hlt, wsub_one _ (le_trans hc (Nat.le_mul_of_pos_left _ (by omega))) hlt]

theorem partEnd_last (fs N : Nat) (h1 : 1 ≤ N) (hN : 1 ≤ fs) (hfs : fs < U64MOD) :
    partEnd fs N (N - 1) = fs - 1 := by
  unfold partEnd calculatePartBoundary
  simp [wsub_one fs hN hfs]

/-- C1, amended. Amended partition correctness of the range planner: for
`1 ≤ N ≤ total_size < 2^64` the `N` ranges produced by
`calculatePartBoundary` are contiguous, pairwise disjoint, their union is
`[0, total_size)`, the last part ends at `total_size - 1`, and for `N = 1`
the single part covers the whole file.  (The hypothesis `N ≤ total_size`
is required: for `total_size < N` the Go `uint64` expression
`startByte + chunkSize - 1` underflows and the ranges overlap, see the
counterexample.) -/
theorem calculatePartBoundary_partition (fs N : Nat)
    (h1 : 1 ≤ N) (hN : N ≤ fs) (hfs : fs < U64MOD) :
    (partStart fs N 0 = 0)
    ∧ (∀ i, i + 1 < N → partStart fs N (i + 1) = partEnd fs N i + 1)
    ∧ (partEnd fs N (N - 1) = fs - 1)
    ∧ (∀ b, b < fs ↔ ∃ i, i < N ∧ inPart fs N i b)
    ∧ (∀ i j b, i < N → j < N → inPart fs N i b → inPart fs N j b → i = j)
    ∧ (N = 1 → partStart fs N 0 = 0 ∧ partEnd fs N 0 = fs - 1) := by
  have hc : 1 ≤ fs / N := chunk_pos fs N h1 hN
  have hfs1 : 1 ≤ fs := le_trans h1 hN
  refine ⟨?_, ?_, ?_, ?_, ?_, ?_⟩
  · rw [partStart_eq fs N hfs 0 (by omega)]; simp
  · intro i hi
    rw [partStart_eq fs N hfs (i + 1) (by omega), partEnd_mid fs N h1 hN hfs i hi]
    have : 1 ≤ (i + 1) * (fs / N) := le_trans hc (Nat.le_mul_of_pos_left _ (by omega))
    omega
  · exact partEnd_last fs N h1 hfs1 hfs
  · intro b
    constructor
    · intro hb
      by_cases h : b / (fs / N) < N - 1
      · refine ⟨b / (fs / N), by omega, ?_, ?_⟩
        · rw [partStart_eq fs N hfs _ (by omega)]
          exact Nat.div_mul_le_self b (fs / N)
        · rw [partEnd_mid fs N h1 hN hfs _ (by omega)]
          have hdm := Nat.div_add_mod b (fs / N)
          have hml : b % (fs / N) < fs / N := Nat.mod_lt b (by omega)
          have : b < (b / (fs / N) + 1) * (fs / N) := by
            have e : (b / (fs / N) + 1) * (fs / N)
                = (fs / N) * (b / (fs / N)) + (fs / N) := by ring
            omega
          omega
      · refine ⟨N - 1, by omega, ?_, ?_⟩
        · rw [partStart_eq fs N hfs _ (by omega)]
          calc (N - 1) * (fs / N) ≤ b / (fs / N) * (fs / N) :=
                Nat.mul_le_mul_right _ (by omega)
            _ ≤ b := Nat.div_mul_le_self b (fs / N)
        · rw [partEnd_last fs N h1 hfs1 hfs]; omega
    · rintro ⟨i, hi, hs, he⟩
      by_cases hlast : i = N - 1
      · subst hlast
        rw [partEnd_last fs N h1 hfs1 hfs] at he
        omega
      · rw [partEnd_mid fs N h1 hN hfs i (by omega)] at he
        have hle : (i + 1) * (fs / N) ≤ fs := chunk_mul_le fs N (i + 1) (by omega)
        have : 1 ≤ (i + 1) * (fs / N) := le_trans hc (Nat.le_mul_of_pos_left _ (by omega))
        omega
  · intro i j b hi hj hbi hbj
    by_contra hne
    -- by symmetry assume the smaller index ends before the larger starts
    rcases Nat.lt_or_ge i j with hij | hij
    · have hiN : i + 1 < N := by omega
      have he := hbi.2
      have hs := hbj.1
      rw [partEnd_mid fs N h1 hN hfs i hiN] at he
      rw [partStart_eq fs N hfs j hj] at hs
      have hmono : (i + 1) * (fs / N) ≤ j * (fs / N) :=
        Nat.mul_le_mul_right _ (by omega)
      have : 1 ≤ (i + 1) * (fs / N) := le_trans hc (Nat.le_mul_of_pos_left _ (by omega))
      omega
    · have hji : j < i := by omega
      have hjN : j + 1 < N := by omega
      have he := hbj.2
      have hs := hbi.1
      rw [partEnd_mid fs N h1 hN hfs j hjN] at he
      rw [partStart_eq fs N hfs i hi] at hs
      have hmono : (j + 1) * (fs / N) ≤ i * (fs / N) :=
        Nat.mul_le_mul_right _ (by omega)
      have : 1 ≤ (j + 1) * (fs / N) := le_trans hc (Nat.le_mul_of_pos_left _ (by omega))
      omega
  · intro hN1
    subst hN1
    refine ⟨by rw [partStart_eq fs 1 hfs 0 (by omega)]; simp,
      partEnd_last fs 1 (by omega) hfs1 hfs⟩

/-- Witness for `calculatePartBoundary_partition` at the spec's own example
`(total_size, N) = (1000, 4)`. -/
theorem calculatePartBoundary_partition_witness :
    (1 ≤ 4 ∧ 4 ≤ 1000 ∧ 1000 < U64MOD)
    ∧ ((partStart 1000 4 0 = 0)
      ∧ (∀ i, i + 1 < 4 → partStart 1000 4 (i + 1) = partEnd 1000 4 i + 1)
      ∧ (partEnd 1000 4 (4 - 1) = 1000 - 1)
      ∧ (∀ b, b < 1000 ↔ ∃ i, i < 4 ∧ inPart 1000 4 i b)
      ∧ (∀ i j b, i < 4 → j < 4 → inPart 1000 4 i b → inPart 1000 4 j b → i = j)
      ∧ (4 = 1 → partStart 1000 4 0 = 0 ∧ partEnd 1000 4 0 = 1000 - 1)) :=
  ⟨⟨by decide, by decide, by decide⟩,
    calculatePartBoundary_partition 1000 4 (by decide) (by decide) (by decide)⟩

/-- C1, counterexample. For `total_size = 3 < N = 4` the claim as stated
fails: `chunkSize = 0` makes `startByte + chunkSize - 1` underflow, so part 0
is `(0, 2^64 - 1)`.  Byte 0 lies in both part 0 and part 3 (the ranges are
not pairwise disjoint) and byte 3 = `total_size` lies in part 0 (the union
is not `[0, total_size)`). -/
theorem calculatePartBoundary_small_file_counterexample :
    calculatePartBoundary 3 4 0 = (0, U64MOD - 1)
    ∧ calculatePartBoundary 3 4 3 = (0, 2)
    ∧ inPart 3 4 0 0 ∧ inPart 3 4 3 0 ∧ (0 : Nat) ≠ 3
    ∧ inPart 3 4 0 3 := by
  refine ⟨?_, ?_, ?_, ?_, by decide, ?_⟩ <;> decide

/-! ## Progress journal (src/progress.go)

`PartProgress` and `DownloadProgress` mirror the Go structs; `time.Time`
values are modelled as `Nat` timestamps and the Go `map[int]*PartProgress`
as an association list from part index to entry. -/

/-- Go struct `PartProgress` (src/progress.go lines 22-29). -/
structure PartProgress where
  index : Nat
  startByte : Nat
  endByte : Nat
  downloaded : Nat
  completed : Bool
  lastModified : Nat
deriving DecidableEq, Repr

/-- Go struct `DownloadProgress` (src/progress.go lines 11-20). -/
structure DownloadProgress where
  version : Nat
  uri : String
  fileSize : Nat
  filename : String
  parts : List (Nat × PartProgress)
  created : Nat
  lastUpdated : Nat
  completed : Bool
deriving DecidableEq, Repr

/-- Result of `os.ReadFile` + `json.Unmarshal` on the journal path:
the file is missing, unreadable, or readable with a given parse result
(`none` = the JSON does not parse). -/
inductive DiskRead where
  | missing
  | readError
  | content (parsed : Option DownloadProgress)
deriving DecidableEq

/-- Filesystem side effects performed by journal operations. -/
inductive FsEffect where
  | readFile
  | writeFile
  | renameFile
  | removeFile
deriving DecidableEq, Repr

/-- Outcome of `loadProgress`: a Go error, or success together with the
in-memory journal now in effect (`dl.progress`; `none` = fresh run). -/
inductive LoadResult where
  | err (msg : String)
  | ok (progress : Option DownloadProgress)
deriving DecidableEq

/-- Function `loadProgress` (src/progress.go lines 35-57), as a function of the
current descriptor (`dl.uri`, `dl.filesize`) and of what is on disk.
The second component records the filesystem effects: the function only
ever reads the journal file.

```go
func (dl *download) loadProgress() error {
    data, err := os.ReadFile(progressPath)
    if err != nil {
        if os.IsNotExist(err) { return nil }
        return fmt.Errorf("failed to read progress file: %w", err)
    }
    var progress DownloadProgress
    if err := json.Unmarshal(data, &progress); err != nil {
        return fmt.Errorf("failed to parse progress file: %w", err)
    }
    if progress.URI != dl.uri || progress.FileSize != dl.filesize {
        fmt.Println("Progress file is for a different download, starting fresh")
        return nil
    }
    dl.progress = &progress
    return nil
}
``` -/
def loadProgress (uri : String) (filesize : Nat) (disk : DiskRead) :
    LoadResult × List FsEffect :=
  match disk with
  | .missing => (.ok none, [.readFile])
  | .readError => (.err "failed to read progress file", [.readFile])
  | .content none => (.err "failed to parse progress file", [.readFile])
  | .content (some progress) =>
    if progress.uri ≠ uri ∨ progress.fileSize ≠ filesize then
      (.ok none, [.readFile])
    else
      (.ok (some progress), [.readFile])

/-- The journal's part table matches the planner's current partitioning for
`(filesize, boost)`: one entry per index `0 .. boost-1`, each with exactly
the planner's byte range.  (Stated from the spec; used to express the
partition-mismatch claim.) -/
def journalMatchesPlan (j : DownloadProgress) (filesize boost : Nat) : Bool :=
  j.parts.length = boost &&
    (List.range boost).all fun i =>
      match j.parts.lookup i with
      | some e =>
        e.index = i && e.startByte = partStart filesize boost i
          && e.endByte = partEnd filesize boost i
      | none => false

/-- In-memory downloader state relevant to the journal: the current
in-memory journal (`dl.progress`, `none` = nil pointer) and the per-part
atomic counters (`dl.partDownloaded`). -/
structure DlState where
  progress : Option DownloadProgress
  partDownloaded : List Nat
deriving DecidableEq

/-- The counter-sync loop at the head of `saveProgress`
(src/progress.go lines 67-72): for every counter index `i`, if the journal
has an entry for part `i`, its `downloaded` is set to the counter value and
its `lastModified` to the current time. -/
def syncParts (parts : List (Nat × PartProgress)) (counters : List Nat)
    (now : Nat) : List (Nat × PartProgress) :=
  parts.map fun kv =>
    if h : kv.1 < counters.length then
      (kv.1, { kv.2 with downloaded := counters.get ⟨kv.1, h⟩, lastModified := now })
    else kv

/-- Function `saveProgress` (src/progress.go lines 59-91), as a state transformer.
`now` models `time.Now()`; `writeOk` / `renameOk` model whether
`os.WriteFile` of the temp file and `os.Rename` over the journal path
succeed.  Returns the new in-memory state, the filesystem effects
performed, and the Go error (`none` = nil).

```go
func (dl *download) saveProgress() error {
    dl.progressMutex.Lock(); defer dl.progressMutex.Unlock()
    if dl.progress == nil { return nil }
    for i := range dl.partDownloaded { ... sync counters ... }
    dl.progress.LastUpdated = time.Now()
    data, err := json.MarshalIndent(dl.progress, "", "  ")
    if err != nil { return ... }
    tempPath := dl.progressFilePath() + ".tmp"
    if err := os.WriteFile(tempPath, data, 0644); err != nil { return ... }
    if err := os.Rename(tempPath, dl.progressFilePath()); err != nil { return ... }
    return nil
}
```
(`json.MarshalIndent` of this struct cannot fail and is modelled as total.) -/
def saveProgress (st : DlState) (now : Nat) (writeOk renameOk : Bool) :
    DlState × List FsEffect × Option String :=
  match st.progress with
  | none => (st, [], none)
  | some p =>
    let p' := { p with parts := syncParts p.parts st.partDownloaded now,
                       lastUpdated := now }
    let st' := { st with progress := some p' }
    if !writeOk then
      (st', [.writeFile], some "failed to write progress file")
    else if !renameOk then
      (st', [.writeFile, .renameFile], some "failed to rename progress file")
    else
      (st', [.writeFile, .renameFile], none)

/-- Test fixture: a journal recorded for URI `http://example.com/A` of a
1000-byte file, written by a 1-part run (a single entry covering
`(0, 999)` with 300 bytes downloaded). -/
def jOnePart : DownloadProgress :=
  { version := 1
    uri := "http://example.com/A"
    fileSize := 1000
    filename := "A"
    parts := [(0, { index := 0, startByte := 0, endByte := 999,
                    downloaded := 300, completed := false, lastModified := 0 })]
    created := 0
    lastUpdated := 0
    completed := false }

/-- Test fixture: alias used for fingerprint-mismatch statements. -/
def jA : DownloadProgress := jOnePart

/-- C7. Fingerprint guard of `loadProgress`: if the on-disk journal's
`uri` or `file_size` differs from the current resource descriptor, loading
returns success with no journal in effect (a fresh run starts), and the
journal file is not deleted — the load performs no filesystem mutation at
all, only the read. -/
theorem loadProgress_fingerprint_guard (uri : String) (filesize : Nat)
    (j : DownloadProgress) (h : j.uri ≠ uri ∨ j.fileSize ≠ filesize) :
    loadProgress uri filesize (.content (some j)) = (.ok none, [.readFile])
    ∧ FsEffect.removeFile ∉ (loadProgress uri filesize (.content (some j))).2
    ∧ FsEffect.writeFile ∉ (loadProgress uri filesize (.content (some j))).2 := by
  simp only [loadProgress]
  rw [if_pos h]
  refine ⟨rfl, by simp, by simp⟩

/-- Witness for `loadProgress_fingerprint_guard`: a journal recorded for
URI `A` is ignored (and not deleted) by a run for URI `B`. -/
theorem loadProgress_fingerprint_guard_witness :
    (jA.uri ≠ "http://example.com/B" ∨ jA.fileSize ≠ 1000)
    ∧ loadProgress "http://example.com/B" 1000 (.content (some jA))
        = (.ok none, [.readFile])
    ∧ FsEffect.removeFile
        ∉ (loadProgress "http://example.com/B" 1000 (.content (some jA))).2 :=
  ⟨Or.inl (by decide),
    (loadProgress_fingerprint_guard _ _ jA (Or.inl (by decide))).1,
    (loadProgress_fingerprint_guard _ _ jA (Or.inl (by decide))).2.1⟩

/-- C3, counterexample. A journal whose part table does not match the
planner's current partitioning is nevertheless accepted for resume when its
`uri` and `file_size` match: here the journal was written by a 1-part run
(single entry covering `(0, 999)`), the current run plans 2 parts
`(0,499),(500,999)`, and `loadProgress` still installs the journal. -/
theorem loadProgress_partition_mismatch_counterexample :
    journalMatchesPlan jOnePart 1000 2 = false
    ∧ (loadProgress "http://example.com/A" 1000 (.content (some jOnePart))).1
        = .ok (some jOnePart) := by
  constructor <;> decide

/-- C3, amended. `loadProgress` validates only the `uri` and
`file_size` fingerprint: any journal matching them is installed for resume,
even when its part table does not match the planner's current partitioning
for this run. -/
theorem loadProgress_no_partition_check (uri : String) (filesize boost : Nat)
    (j : DownloadProgress) (h1 : j.uri = uri) (h2 : j.fileSize = filesize)
    (h3 : journalMatchesPlan j filesize boost = false) :
    (loadProgress uri filesize (.content (some j))).1 = .ok (some j) := by
  simp only [loadProgress]
  rw [if_neg (by simp [h1, h2])]

/-- Witness for `loadProgress_no_partition_check` at the concrete
mismatched journal. -/
theorem loadProgress_no_partition_check_witness :
    (jOnePart.uri = "http://example.com/A" ∧ jOnePart.fileSize = 1000
      ∧ journalMatchesPlan jOnePart 1000 2 = false)
    ∧ (loadProgress "http://example.com/A" 1000 (.content (some jOnePart))).1
        = .ok (some jOnePart) :=
  ⟨⟨by decide, by decide, by decide⟩,
    loadProgress_no_partition_check _ _ 2 jOnePart (by decide) (by decide) (by decide)⟩

/-- C9. `saveProgress` with no initialized journal (`dl.progress == nil`)
is a complete no-op that returns success: the state is unchanged, no temp
file is written, no rename happens, and the Go error is nil — for any
current time and any filesystem behaviour. -/
theorem saveProgress_nil_noop (st : DlState) (now : Nat) (writeOk renameOk : Bool)
    (h : st.progress = none) :
    saveProgress st now writeOk renameOk = (st, [], none) := by
  unfold saveProgress
  rw [h]

/-- Witness for `saveProgress_nil_noop` at a concrete journal-less state. -/
theorem saveProgress_nil_noop_witness :
    (DlState.progress ⟨none, [5, 7]⟩ = none)
    ∧ saveProgress ⟨none, [5, 7]⟩ 42 false true = (⟨none, [5, 7]⟩, [], none) :=
  ⟨rfl, saveProgress_nil_noop ⟨none, [5, 7]⟩ 42 false true rfl⟩

/-! ## Part fetcher, single attempt: `fetchPartOnce` (src/main.go lines 913-1001)

The attempt is modelled up to the point where the response body starts
streaming: the resume-offset computation, the early-completion shortcut,
the `Range` request header, and the response status check.  The server's
response is a parameter (`status`, `statusText`). -/

/-- Go struct `downloadPart` (src/main.go lines 83-88). -/
structure downloadPart where
  index : Nat
  uri : String
  startByte : Nat
  endByte : Nat
deriving DecidableEq

/-- The Go format `fmt.Sprintf("bytes=%d-%d", startByte, p.endByte)`. -/
def rangeHeader (s e : Nat) : String :=
  "bytes=" ++ Nat.repr s ++ "-" ++ Nat.repr e

/-- The resume decision at the head of `fetchPartOnce`
(src/main.go lines 914-932): either the part is already fully downloaded
(mark completed, no request), or a request starts at the effective offset.

```go
startByte := p.startByte
alreadyDownloaded := uint64(0)
if dl.progress != nil && dl.progress.Parts[p.index] != nil {
    partProgress := dl.progress.Parts[p.index]
    if partProgress.Downloaded > 0 {
        alreadyDownloaded = partProgress.Downloaded
        startByte = p.startByte + alreadyDownloaded
        expectedSize := p.endByte - p.startByte + 1
        if alreadyDownloaded >= expectedSize {
            dl.updatePartProgress(p.index, alreadyDownloaded, true)
            return nil
        }
    }
}
```
`entry` is `dl.progress.Parts[p.index]` (`none` when there is no journal or
no entry for this part). -/
inductive ResumeDecision where
  | complete (downloaded : Nat)
  | request (startByte : Nat)
deriving DecidableEq

def resumeStart (p : downloadPart) (entry : Option PartProgress) : ResumeDecision :=
  match entry with
  | some pp =>
    if 0 < pp.downloaded then
      if (wsub p.endByte p.startByte + 1) % U64MOD ≤ pp.downloaded then
        .complete pp.downloaded
      else
        .request ((p.startByte + pp.downloaded) % U64MOD)
    else .request p.startByte
  | none => .request p.startByte

/-- What happened after the range-GET was issued. -/
inductive RequestOutcome where
  | badStatus (msg : String)
  | streaming (writeStart : Nat)
deriving DecidableEq

/-- Observable behaviour of one `fetchPartOnce` attempt: either the part
was marked completed without any HTTP request, or a range-GET with the
given `Range` header was issued and then either rejected on status or
streamed into the file starting at `writeStart`. -/
inductive PartAttempt where
  | earlyComplete (index downloaded : Nat)
  | requested (rangeHdr : String) (outcome : RequestOutcome)
deriving DecidableEq

/-- The `Range` header of the request issued by an attempt, if any. -/
def requestOf : PartAttempt → Option String
  | .earlyComplete _ _ => none
  | .requested h _ => some h

/-- Function `fetchPartOnce` (src/main.go lines 913-1001) up to body streaming.
The status check is
```go
if resp.StatusCode != http.StatusPartialContent && resp.StatusCode != http.StatusOK {
    return fmt.Errorf("server returned status %d (%s) for part %d (bytes %d-%d)",
        resp.StatusCode, resp.Status, p.index, startByte, p.endByte)
}
```
and is independent of the number of parts. -/
def fetchPartOnce (p : downloadPart) (entry : Option PartProgress)
    (status : Nat) (statusText : String) : PartAttempt :=
  match resumeStart p entry with
  | .complete d => .earlyComplete p.index d
  | .request sb =>
    if status ≠ 206 ∧ status ≠ 200 then
      .requested (rangeHeader sb p.endByte)
        (.badStatus ("server returned status " ++ Nat.repr status ++ " ("
          ++ statusText ++ ") for part " ++ Nat.repr p.index ++ " (bytes "
          ++ Nat.repr sb ++ "-" ++ Nat.repr p.endByte ++ ")"))
    else
      .requested (rangeHeader sb p.endByte) (.streaming sb)

theorem wsub_of_le (a b : Nat) (hba : b ≤ a) (ha : a < U64MOD) :
    wsub a b = a - b := by
  unfold wsub
  rw [Nat.mod_eq_of_lt (lt_of_le_of_lt hba ha)]
  have h4 : a + U64MOD - b = (a - b) + U64MOD := by omega
  rw [h4, Nat.add_mod_right, Nat.mod_eq_of_lt (by omega)]

/-- C2. Resume semantics of a single fetch attempt for a part with a
journal entry carrying `downloaded = d`: if `0 < d < end − start + 1` the
attempt issues a range-GET with header `bytes=<start+d>-<end>`; if
`d ≥ end − start + 1` it marks the part completed and returns success
without issuing any request.  (The bounds `start ≤ end` and
`end + 1 < 2^64` hold for every planner part of a `uint64`-sized file.) -/
theorem fetchPartOnce_resume_range (p : downloadPart) (pp : PartProgress)
    (status : Nat) (statusText : String)
    (hse : p.startByte ≤ p.endByte) (hlt : p.endByte + 1 < U64MOD) :
    (0 < pp.downloaded → pp.downloaded < p.endByte - p.startByte + 1 →
      requestOf (fetchPartOnce p (some pp) status statusText)
        = some (rangeHeader (p.startByte + pp.downloaded) p.endByte))
    ∧ (p.endByte - p.startByte + 1 ≤ pp.downloaded →
      fetchPartOnce p (some pp) status statusText
        = .earlyComplete p.index pp.downloaded) := by
  have hsize : (wsub p.endByte p.startByte + 1) % U64MOD
      = p.endByte - p.startByte + 1 := by
    rw [wsub_of_le _ _ hse (by omega)]
    exact Nat.mod_eq_of_lt (by omega)
  constructor
  · intro hd0 hdlt
    have hstart : (p.startByte + pp.downloaded) % U64MOD
        = p.startByte + pp.downloaded := Nat.mod_eq_of_lt (by omega)
    have hres : resumeStart p (some pp)
        = .request (p.startByte + pp.downloaded) := by
      simp only [resumeStart]
      rw [if_pos hd0, hsize, if_neg (by omega), hstart]
    simp only [fetchPartOnce, hres]
    by_cases hst : status ≠ 206 ∧ status ≠ 200
    · rw [if_pos hst]; rfl
    · rw [if_neg hst]; rfl
  · intro hdge
    have hd0 : 0 < pp.downloaded := by omega
    have hres : resumeStart p (some pp) = .complete pp.downloaded := by
      simp only [resumeStart]
      rw [if_pos hd0, hsize, if_pos hdge]
    simp only [fetchPartOnce, hres]

/-- Witness for `fetchPartOnce_resume_range` at the spec's resume example:
part `(0, 499)` with `downloaded = 250` issues `Range: bytes=250-499`,
and with `downloaded = 500` completes without a request. -/
theorem fetchPartOnce_resume_range_witness :
    ((0 : Nat) ≤ 499 ∧ 499 + 1 < U64MOD ∧ (0 : Nat) < 250 ∧ 250 < 499 - 0 + 1)
    ∧ requestOf (fetchPartOnce ⟨0, "http://example.com/A", 0, 499⟩
        (some { index := 0, startByte := 0, endByte := 499, downloaded := 250,
                completed := false, lastModified := 0 }) 206 "206 Partial Content")
        = some (rangeHeader (0 + 250) 499)
    ∧ rangeHeader (0 + 250) 499 = "bytes=250-499"
    ∧ fetchPartOnce ⟨0, "http://example.com/A", 0, 499⟩
        (some { index := 0, startByte := 0, endByte := 499, downloaded := 500,
                completed := false, lastModified := 0 }) 206 "206 Partial Content"
        = .earlyComplete 0 500 :=
  ⟨⟨by decide, by decide, by decide, by decide⟩,
    (fetchPartOnce_resume_range _ _ 206 "206 Partial Content"
      (by decide) (by decide)).1 (by decide) (by decide),
    by decide,
    (fetchPartOnce_resume_range _ _ 206 "206 Partial Content"
      (by decide) (by decide)).2 (by decide)⟩

/-- C5, counterexample. In multi-part mode a 200 response is also
treated as success, not only 206: for part 0 of the 4-part plan of a
1000-byte file (so more than one part), a fresh attempt answered with
status 200 proceeds to stream rather than failing. -/
theorem fetchPartOnce_accepts_200_multipart_counterexample :
    calculatePartBoundary 1000 4 0 = (0, 249)
    ∧ 1 < 4
    ∧ fetchPartOnce ⟨0, "http://example.com/A", 0, 249⟩ none 200 "200 OK"
        = .requested (rangeHeader 0 249) (.streaming 0) := by
  refine ⟨by decide, by decide, ?_⟩
  rfl

/-- C5, amended. The status check of a worker's range-GET is the same
in every mode: status 206 or 200 succeeds, and any other status fails with
an error naming the part index, the byte range, and the status. -/
theorem fetchPartOnce_status_check (p : downloadPart) (status : Nat)
    (statusText : String) :
    ((status = 206 ∨ status = 200) →
      fetchPartOnce p none status statusText
        = .requested (rangeHeader p.startByte p.endByte) (.streaming p.startByte))
    ∧ (status ≠ 206 → status ≠ 200 →
      fetchPartOnce p none status statusText
        = .requested (rangeHeader p.startByte p.endByte)
          (.badStatus ("server returned status " ++ Nat.repr status ++ " ("
            ++ statusText ++ ") for part " ++ Nat.repr p.index ++ " (bytes "
            ++ Nat.repr p.startByte ++ "-" ++ Nat.repr p.endByte ++ ")"))) := by
  have hres : resumeStart p none = .request p.startByte := rfl
  constructor
  · intro hst
    simp only [fetchPartOnce, hres]
    rw [if_neg (by omega)]
  · intro h206 h200
    simp only [fetchPartOnce, hres]
    rw [if_pos ⟨h206, h200⟩]

/-- Witness for `fetchPartOnce_status_check`: a 404 response on part 2
covering bytes `(500, 749)` fails with the descriptive error. -/
theorem fetchPartOnce_status_check_witness :
    ((404 : Nat) ≠ 206 ∧ (404 : Nat) ≠ 200)
    ∧ fetchPartOnce ⟨2, "http://example.com/A", 500, 749⟩ none 404 "404 Not Found"
        = .requested (rangeHeader 500 749)
          (.badStatus ("server returned status " ++ Nat.repr 404 ++ " ("
            ++ "404 Not Found" ++ ") for part " ++ Nat.repr 2 ++ " (bytes "
            ++ Nat.repr 500 ++ "-" ++ Nat.repr 749 ++ ")"))
    ∧ rangeHeader 500 749 = "bytes=500-749" :=
  ⟨⟨by decide, by decide⟩,
    (fetchPartOnce_status_check ⟨2, "http://example.com/A", 500, 749⟩ 404
      "404 Not Found").2 (by decide) (by decide),
    by decide⟩

/-! ## Retry controller: `fetchPartRange` (src/main.go lines 891-911)

```go
func (dl *download) fetchPartRange(p downloadPart, outFile *os.File) error {
    var lastErr error
    baseDelay := 1 * time.Second
    for i := 0; i < dl.retries; i++ {
        err := dl.fetchPartOnce(p, outFile)
        if err == nil { return nil }
        lastErr = err
        if i < dl.retries-1 {
            delay := baseDelay * time.Duration(math.Pow(2, float64(i)))
            ...
            time.Sleep(delay)
        }
    }
    return fmt.Errorf("part %d failed after %d retries: %w", p.index, dl.retries, lastErr)
}
```

The outcome of each `fetchPartOnce` call is a parameter
`a : Nat → Option String` (`none` = nil error on attempt `i`; `some msg` =
failure).  The loop is modelled with an explicit fuel equal to the number
of remaining iterations (`fuel = retries - i`), which is exact, and the
observable behaviour is an ordered event trace of attempts and sleeps.
`math.Pow(2, float64(i))` is exact in `float64` for every realistic `i`
(`i < 53`) and is modelled as `2 ^ i` seconds. -/

/-- One observable step of the retry loop: invoking the part fetcher for
attempt `i`, or sleeping for the given number of seconds. -/
inductive RetryEvent where
  | attempt (i : Nat)
  | sleep (seconds : Nat)
deriving DecidableEq, Repr

/-- The wrapping error built on exhaustion:
`fmt.Errorf("part %d failed after %d retries: %w", p.index, dl.retries, lastErr)`.
It carries the part index, the attempt count, and the last underlying
cause (`none` only in the degenerate `retries = 0` case, where `lastErr`
is still nil). -/
inductive RetryError where
  | exhausted (index retries : Nat) (cause : Option String)
deriving DecidableEq, Repr

/-- Result of the retry controller: the ordered event trace and the
returned error (`none` = success). -/
structure RetryTrace where
  events : List RetryEvent
  result : Option RetryError
deriving DecidableEq, Repr

/-- The retry loop with `fuel = retries - i` remaining iterations. -/
def retryLoopGo (r idx : Nat) (a : Nat → Option String) :
    Nat → Nat → Option String → List RetryEvent → RetryTrace
  | 0, _i, lastErr, evs => ⟨evs, some (.exhausted idx r lastErr)⟩
  | fuel + 1, i, _lastErr, evs =>
    match a i with
    | none => ⟨evs ++ [.attempt i], none⟩
    | some e =>
      if i < r - 1 then
        retryLoopGo r idx a fuel (i + 1) (some e) (evs ++ [.attempt i, .sleep (2 ^ i)])
      else
        retryLoopGo r idx a fuel (i + 1) (some e) (evs ++ [.attempt i])

/-- Function `fetchPartRange` for a part with index `idx`, `r = dl.retries`, and
per-attempt outcomes `a`. -/
def fetchPartRange (r idx : Nat) (a : Nat → Option String) : RetryTrace :=
  retryLoopGo r idx a r 0 none []

/-- The event schedule for attempts `i, i+1, …, i+f`, with a sleep of
`2^j` seconds after every attempt `j` except the last one. -/
def successFromGo : Nat → Nat → List RetryEvent
  | 0, i => [.attempt i]
  | f + 1, i => .attempt i :: .sleep (2 ^ i) :: successFromGo f (i + 1)

/-- The expected backoff schedule for `m` attempts (numbered `0 … m-1`):
no delay before the first attempt, a sleep of `2^i` seconds after attempt
`i` whenever another attempt follows, and no sleep after the last one. -/
def scheduleEvents : Nat → List RetryEvent
  | 0 => []
  | m + 1 => successFromGo m 0

def isAttempt : RetryEvent → Bool
  | .attempt _ => true
  | .sleep _ => false

/-- Number of part-fetcher invocations recorded in a trace. -/
def attemptCount (t : RetryTrace) : Nat := t.events.countP isAttempt

theorem retryLoopGo_all_fail (r idx : Nat) (a : Nat → Option String) :
    ∀ fuel i lastErr evs, fuel = r - i → i < r →
      (∀ j, i ≤ j → j < r → (a j).isSome) →
      retryLoopGo r idx a fuel i lastErr evs
        = ⟨evs ++ successFromGo (r - 1 - i) i, some (.exhausted idx r (a (r - 1)))⟩ := by
  intro fuel
  induction fuel with
  | zero => intro i lastErr evs hfuel hi _; omega
  | succ fuel ih =>
    intro i lastErr evs hfuel hi hall
    have hsome : (a i).isSome := hall i le_rfl hi
    obtain ⟨e, he⟩ := Option.isSome_iff_exists.mp hsome
    simp only [retryLoopGo, he]
    by_cases hlt : i < r - 1
    · rw [if_pos hlt]
      rw [ih (i + 1) (some e) (evs ++ [RetryEvent.attempt i, RetryEvent.sleep (2 ^ i)])
        (by omega) (by omega) (fun j h1 h2 => hall j (by omega) h2)]
      have hrw : r - 1 - i = (r - 1 - (i + 1)) + 1 := by omega
      rw [hrw]
      simp [successFromGo]
    · rw [if_neg hlt]
      have hieq : i = r - 1 := by omega
      have hfuel0 : fuel = 0 := by omega
      subst hfuel0
      simp only [retryLoopGo]
      have h1 : r - 1 - i = 0 := by omega
      rw [h1]
      simp only [successFromGo]
      rw [← hieq, he]

theorem retryLoopGo_first_success (r idx : Nat) (a : Nat → Option String) :
    ∀ fuel i lastErr evs k, fuel = r - i → i ≤ k → k < r →
      (a k).isNone → (∀ j, i ≤ j → j < k → (a j).isSome) →
      retryLoopGo r idx a fuel i lastErr evs = ⟨evs ++ successFromGo (k - i) i, none⟩ := by
  intro fuel
  induction fuel with
  | zero => intro i lastErr evs k hfuel hik hk _ _; omega
  | succ fuel ih =>
    intro i lastErr evs k hfuel hik hk hnone hall
    by_cases hi : i = k
    · subst hi
      have he : a i = none := Option.isNone_iff_eq_none.mp hnone
      simp only [retryLoopGo, he]
      simp [successFromGo]
    · have hsome : (a i).isSome := hall i le_rfl (by omega)
      obtain ⟨e, he⟩ := Option.isSome_iff_exists.mp hsome
      simp only [retryLoopGo, he]
      rw [if_pos (by omega)]
      rw [ih (i + 1) (some e) (evs ++ [RetryEvent.attempt i, RetryEvent.sleep (2 ^ i)]) k
        (by omega) (by omega) hk hnone (fun j h1 h2 => hall j (by omega) h2)]
      have hrw : k - i = (k - (i + 1)) + 1 := by omega
      rw [hrw]
      simp [successFromGo]

theorem retryLoopGo_attempt_bound (r idx : Nat) (a : Nat → Option String) :
    ∀ fuel i lastErr evs,
      attemptCount (retryLoopGo r idx a fuel i lastErr evs)
        ≤ evs.countP isAttempt + fuel := by
  intro fuel
  induction fuel with
  | zero => intro i lastErr evs; simp [retryLoopGo, attemptCount]
  | succ fuel ih =>
    intro i lastErr evs
    cases ha : a i with
    | none =>
      simp [retryLoopGo, ha, attemptCount, List.countP_append, isAttempt]
    | some e =>
      simp only [retryLoopGo, ha]
      by_cases hlt : i < r - 1
      · rw [if_pos hlt]
        refine le_trans (ih (i + 1) (some e) _) ?_
        simp [List.countP_append, isAttempt]
        omega
      · rw [if_neg hlt]
        refine le_trans (ih (i + 1) (some e) _) ?_
        simp [List.countP_append, isAttempt]
        omega

/-- C6. The retry controller invokes the part fetcher at most `retries`
times; the event trace follows the exponential backoff schedule (no delay
before the first attempt, a sleep of exactly `2^i` seconds after the `i`-th
failed attempt when more attempts remain, no sleep after the last failed
attempt); and on exhaustion it returns a wrapping error carrying the part
index, the attempt count, and the last underlying cause. -/
theorem fetchPartRange_backoff_schedule (r idx : Nat) (a : Nat → Option String) :
    (attemptCount (fetchPartRange r idx a) ≤ r)
    ∧ (∀ k, k < r → (a k).isNone → (∀ j, j < k → (a j).isSome) →
        fetchPartRange r idx a = ⟨scheduleEvents (k + 1), none⟩)
    ∧ ((∀ i, i < r → (a i).isSome) → 0 < r →
        fetchPartRange r idx a
          = ⟨scheduleEvents r, some (.exhausted idx r (a (r - 1)))⟩) := by
  refine ⟨?_, ?_, ?_⟩
  · have h := retryLoopGo_attempt_bound r idx a r 0 none []
    simpa [fetchPartRange] using h
  · intro k hk hnone hall
    have h := retryLoopGo_first_success r idx a r 0 none [] k (by omega) (by omega)
      hk hnone (fun j _ hj => hall j hj)
    simp only [fetchPartRange, h, List.nil_append, Nat.sub_zero]
    rfl
  · intro hall hr
    have h := retryLoopGo_all_fail r idx a r 0 none [] (by omega) hr
      (fun j _ hj => hall j hj)
    simp only [fetchPartRange, h, List.nil_append]
    obtain ⟨r', rfl⟩ : ∃ r', r = r' + 1 := ⟨r - 1, by omega⟩
    simp [scheduleEvents]

/-- Fixture: attempt outcomes where attempt 0 fails with a transient error
and attempt 1 succeeds. -/
def attemptsEx : Nat → Option String :=
  fun i => if i = 1 then none else some "connection reset"

/-- Witness for `fetchPartRange_backoff_schedule`: with `retries = 3`,
failure on attempt 0 and success on attempt 1, the trace is
attempt 0, sleep 1 s, attempt 1 — and the bound holds. -/
theorem fetchPartRange_backoff_schedule_witness :
    (1 < 3 ∧ (attemptsEx 1).isNone ∧ (∀ j, j < 1 → (attemptsEx j).isSome))
    ∧ fetchPartRange 3 9 attemptsEx = ⟨scheduleEvents 2, none⟩
    ∧ scheduleEvents 2 = [.attempt 0, .sleep 1, .attempt 1]
    ∧ attemptCount (fetchPartRange 3 9 attemptsEx) ≤ 3 :=
  ⟨⟨by decide, by decide, by decide⟩,
    (fetchPartRange_backoff_schedule 3 9 attemptsEx).2.1 1 (by decide) (by decide)
      (by decide),
    by decide,
    (fetchPartRange_backoff_schedule 3 9 attemptsEx).1⟩

/-- Fixture: every attempt fails with the Go cancellation error text. -/
def cancelAttempts : Nat → Option String := fun _ => some "context canceled"

/-- C4, counterexample. `fetchPartRange` contains no cancellation
check: with `retries = 3` and every attempt failing with a cancellation
error, the controller still performs all three attempts and sleeps 1 s and
2 s in between, instead of returning immediately after the first attempt
with no sleep. -/
theorem fetchPartRange_cancellation_counterexample :
    fetchPartRange 3 7 cancelAttempts
      = ⟨[.attempt 0, .sleep 1, .attempt 1, .sleep 2, .attempt 2],
         some (.exhausted 7 3 (some "context canceled"))⟩
    ∧ attemptCount (fetchPartRange 3 7 cancelAttempts) = 3 := by
  constructor <;> rfl

/-- C4, amended. The retry controller does not special-case
cancellation: when every attempt fails with a cancellation error it
performs all `retries` attempts with the usual backoff sleeps between
them, and returns the exhaustion-wrapping error whose cause is the
cancellation error.  (Cancellation is only recognised at the top level of
`main`, not in `fetchPartRange`.) -/
theorem fetchPartRange_retries_cancellation (r idx : Nat) (hr : 0 < r) :
    fetchPartRange r idx cancelAttempts
      = ⟨scheduleEvents r, some (.exhausted idx r (some "context canceled"))⟩ := by
  have h := retryLoopGo_all_fail r idx cancelAttempts r 0 none [] (by omega) hr
    (fun j _ _ => by simp [cancelAttempts])
  simp only [fetchPartRange, h, List.nil_append]
  obtain ⟨r', rfl⟩ : ∃ r', r = r' + 1 := ⟨r - 1, by omega⟩
  simp [scheduleEvents, cancelAttempts]

/-- Witness for `fetchPartRange_retries_cancellation` at `retries = 2`. -/
theorem fetchPartRange_retries_cancellation_witness :
    (0 < 2)
    ∧ fetchPartRange 2 11 cancelAttempts
        = ⟨scheduleEvents 2, some (.exhausted 11 2 (some "context canceled"))⟩ :=
  ⟨by decide, fetchPartRange_retries_cancellation 2 11 (by decide)⟩

/-! ## Rate-limited writer: `rateLimitedWriter.Write` (writers file, lines 27-50)

```go
func (rl *rateLimitedWriter) Write(p []byte) (int, error) {
    if rl.limiter == nil {
        return rl.w.Write(p)
    }
    written := 0
    for written < len(p) {
        chunkSize := 16 * 1024
        if chunkSize > len(p)-written {
            chunkSize = len(p) - written
        }
        if err := rl.limiter.WaitN(rl.ctx, chunkSize); err != nil {
            return written, err
        }
        n, err := rl.w.Write(p[written : written+chunkSize])
        written += n
        if err != nil {
            return written, err
        }
    }
    return written, nil
}
```

The buffer is abstracted by its length `plen`; the limiter's `WaitN`
results are a parameter `waitOk` (the `k`-th wait succeeds or fails with
the cancellation error), and the downstream writer is a parameter
`down k c = (n, err)` for the `k`-th call with chunk size `c`.  The loop is
modelled with fuel `plen + 1` (each iteration either returns or advances
`written` by at least one byte when the downstream writer makes progress);
`none` marks the diverging executions that the Go loop would also never
exit (a downstream writer that forever returns `(0, nil)`). -/

/-- The 16 KiB chunk cap (`16 * 1024`). -/
def chunkCap : Nat := 16 * 1024

/-- The `chunkSize` of one loop iteration: `min (16 KiB) (len(p) - written)`,
written exactly as the Go comparison computes it. -/
def minChunk (plen written : Nat) : Nat :=
  if chunkCap > plen - written then plen - written else chunkCap

/-- Result of one `Write` call: bytes written, returned error, and the
sizes of the chunks forwarded to the downstream writer, in order. -/
structure RLResult where
  written : Nat
  errMsg : Option String
  forwarded : List Nat
deriving DecidableEq, Repr

def rlLoopGo (waitOk : Nat → Bool) (down : Nat → Nat → Nat × Option String)
    (plen : Nat) : Nat → Nat → Nat → List Nat → Option RLResult
  | 0, written, _k, acc =>
    if written < plen then none else some ⟨written, none, acc⟩
  | fuel + 1, written, k, acc =>
    if written < plen then
      if waitOk k then
        match down k (minChunk plen written) with
        | (n, some e) => some ⟨written + n, some e, acc ++ [minChunk plen written]⟩
        | (n, none) =>
          rlLoopGo waitOk down plen fuel (written + n) (k + 1)
            (acc ++ [minChunk plen written])
      else some ⟨written, some "context canceled", acc⟩
    else some ⟨written, none, acc⟩

/-- Method `rateLimitedWriter.Write` on a buffer of length `plen`.  With no
limiter set (`limiterSet = false`) the call passes straight through to the
downstream writer with the whole buffer. -/
def rateLimitedWrite (limiterSet : Bool) (waitOk : Nat → Bool)
    (down : Nat → Nat → Nat × Option String) (plen : Nat) : Option RLResult :=
  if limiterSet then rlLoopGo waitOk down plen (plen + 1) 0 0 []
  else some ⟨(down 0 plen).1, (down 0 plen).2, [plen]⟩

/-- The chunk decomposition of `rem` remaining bytes: full 16 KiB chunks
followed by the remainder. -/
def chunkSizesGo : Nat → Nat → List Nat
  | 0, _ => []
  | fuel + 1, rem =>
    if rem = 0 then []
    else minChunk rem 0 :: chunkSizesGo fuel (rem - minChunk rem 0)

def chunkSizes (rem : Nat) : List Nat := chunkSizesGo rem rem

theorem minChunk_zero_right (rem : Nat) :
    minChunk rem 0 = if chunkCap > rem then rem else chunkCap := by
  simp [minChunk]

theorem chunkSizesGo_zero (fuel : Nat) : chunkSizesGo fuel 0 = [] := by
  cases fuel <;> simp [chunkSizesGo]

theorem chunkSizesGo_fuel (fuel₁ : Nat) :
    ∀ fuel₂ rem, rem ≤ fuel₁ → rem ≤ fuel₂ →
      chunkSizesGo fuel₁ rem = chunkSizesGo fuel₂ rem := by
  induction fuel₁ with
  | zero =>
    intro fuel₂ rem h1 _
    have : rem = 0 := by omega
    subst this
    rw [chunkSizesGo_zero, chunkSizesGo_zero]
  | succ f ih =>
    intro fuel₂ rem h1 h2
    by_cases hz : rem = 0
    · subst hz; rw [chunkSizesGo_zero, chunkSizesGo_zero]
    · obtain ⟨f₂, rfl⟩ : ∃ f₂, fuel₂ = f₂ + 1 := ⟨fuel₂ - 1, by omega⟩
      simp only [chunkSizesGo, if_neg hz]
      have hc : 1 ≤ minChunk rem 0 ∧ minChunk rem 0 ≤ rem := by
        simp only [minChunk, chunkCap]; split <;> omega
      rw [ih f₂ (rem - minChunk rem 0) (by omega) (by omega)]

theorem chunkSizesGo_bounded (fuel : Nat) :
    ∀ rem, ∀ c ∈ chunkSizesGo fuel rem, 0 < c ∧ c ≤ chunkCap := by
  induction fuel with
  | zero => intro rem c hc; simp [chunkSizesGo] at hc
  | succ f ih =>
    intro rem c hc
    by_cases hz : rem = 0
    · subst hz; simp [chunkSizesGo] at hc
    · simp only [chunkSizesGo, if_neg hz] at hc
      rcases List.mem_cons.mp hc with h | h
      · subst h
        simp only [minChunk, chunkCap]
        split <;> omega
      · exact ih _ c h

theorem minChunk_shift (plen written : Nat) :
    minChunk (plen - written) 0 = minChunk plen written := by
  simp [minChunk]

theorem chunkSizes_cons (rem : Nat) (hz : rem ≠ 0) :
    chunkSizes rem = minChunk rem 0 :: chunkSizes (rem - minChunk rem 0) := by
  obtain ⟨m, rfl⟩ : ∃ m, rem = m + 1 := ⟨rem - 1, by omega⟩
  have hcb : 1 ≤ minChunk (m + 1) 0 ∧ minChunk (m + 1) 0 ≤ m + 1 := by
    simp only [minChunk, chunkCap]
    split <;> omega
  unfold chunkSizes
  simp only [chunkSizesGo, if_neg hz]
  rw [chunkSizesGo_fuel m (m + 1 - minChunk (m + 1) 0) (m + 1 - minChunk (m + 1) 0)
    (by omega) (by omega)]

theorem rlLoopGo_all_ok (waitOk : Nat → Bool) (down : Nat → Nat → Nat × Option String)
    (plen : Nat) (hd : ∀ k c, down k c = (c, none)) (hw : ∀ j, waitOk j = true) :
    ∀ fuel written k acc, written ≤ plen → plen - written ≤ fuel →
      rlLoopGo waitOk down plen fuel written k acc
        = some ⟨plen, none, acc ++ chunkSizes (plen - written)⟩ := by
  intro fuel
  induction fuel with
  | zero =>
    intro written k acc h1 h2
    have hwp : written = plen := by omega
    subst hwp
    simp [rlLoopGo, chunkSizes, chunkSizesGo_zero]
  | succ f ih =>
    intro written k acc h1 h2
    by_cases hwp : written < plen
    · have hcb : 1 ≤ minChunk plen written ∧ minChunk plen written ≤ plen - written := by
        simp only [minChunk, chunkCap]
        split <;> omega
      simp only [rlLoopGo, if_pos hwp, hw k, if_true, hd k (minChunk plen written)]
      rw [ih (written + minChunk plen written) (k + 1)
        (acc ++ [minChunk plen written]) (by omega) (by omega)]
      have hnz : plen - written ≠ 0 := by omega
      rw [chunkSizes_cons (plen - written) hnz, minChunk_shift plen written]
      rw [show plen - (written + minChunk plen written)
          = (plen - written) - minChunk plen written by omega]
      simp [List.append_assoc]
    · have hwe : written = plen := by omega
      subst hwe
      simp [rlLoopGo, chunkSizes, chunkSizesGo_zero]

theorem rlLoopGo_cancel (waitOk : Nat → Bool) (down : Nat → Nat → Nat × Option String)
    (plen : Nat) (hd : ∀ k c, down k c = (c, none)) (k0 : Nat)
    (hwlt : ∀ j, j < k0 → waitOk j = true) (hk0 : waitOk k0 = false) :
    ∀ fuel written k acc, k ≤ k0 → written + chunkCap * (k0 - k) < plen →
      plen - written ≤ fuel →
      rlLoopGo waitOk down plen fuel written k acc
        = some ⟨written + chunkCap * (k0 - k), some "context canceled",
                acc ++ List.replicate (k0 - k) chunkCap⟩ := by
  intro fuel
  induction fuel with
  | zero =>
    intro written k acc hk hlt hfuel
    exfalso
    omega
  | succ f ih =>
    intro written k acc hk hlt hfuel
    have hwp : written < plen := by omega
    by_cases hkk : k = k0
    · subst hkk
      simp [rlLoopGo, if_pos hwp, hk0]
    · have hklt : k < k0 := by omega
      have hw : waitOk k = true := hwlt k hklt
      have hone : 1 ≤ k0 - k := by omega
      have hchunk : minChunk plen written = chunkCap := by
        simp only [minChunk, chunkCap] at *
        rw [if_neg (by omega)]
      simp only [rlLoopGo, if_pos hwp, hw, if_true, hchunk, hd k chunkCap]
      rw [ih (written + chunkCap) (k + 1) (acc ++ [chunkCap]) (by omega)
        (by simp only [chunkCap] at *; omega) (by simp only [chunkCap] at *; omega)]
      have hm : k0 - k = (k0 - (k + 1)) + 1 := by omega
      rw [hm, List.replicate_succ]
      have hsum : written + chunkCap + chunkCap * (k0 - (k + 1))
          = written + chunkCap * ((k0 - (k + 1)) + 1) := by ring
      rw [hsum]
      simp [List.append_assoc]

/-- C8. Behaviour of `rateLimitedWriter.Write` on a buffer of length
`plen`, for a downstream writer that accepts every chunk in full:
with no limiter set the call passes the whole buffer through unchanged to
the downstream writer, returning its result; with a limiter set and every
wait admitted, the buffer is forwarded in successive chunks each of at
most 16 KiB (full coverage follows from the chunk decomposition); and if
the `k0`-th limiter wait fails with cancellation before the buffer is
exhausted, the call returns the count of bytes already written before that
wait (`k0` full chunks) together with the cancellation error. -/
theorem rateLimitedWriter_write_spec (waitOk : Nat → Bool)
    (down : Nat → Nat → Nat × Option String) (plen : Nat)
    (hd : ∀ k c, down k c = (c, none)) :
    (rateLimitedWrite false waitOk down plen
      = some ⟨(down 0 plen).1, (down 0 plen).2, [plen]⟩)
    ∧ ((∀ j, waitOk j = true) →
      rateLimitedWrite true waitOk down plen = some ⟨plen, none, chunkSizes plen⟩
        ∧ (∀ c ∈ chunkSizes plen, 0 < c ∧ c ≤ chunkCap))
    ∧ (∀ k0, (∀ j, j < k0 → waitOk j = true) → waitOk k0 = false →
      chunkCap * k0 < plen →
      rateLimitedWrite true waitOk down plen
        = some ⟨chunkCap * k0, some "context canceled",
                List.replicate k0 chunkCap⟩) := by
  refine ⟨rfl, ?_, ?_⟩
  · intro hw
    refine ⟨?_, chunkSizesGo_bounded plen plen⟩
    have h := rlLoopGo_all_ok waitOk down plen hd hw (plen + 1) 0 0 []
      (by omega) (by omega)
    simpa [rateLimitedWrite] using h
  · intro k0 hwlt hk0 hlt
    have h := rlLoopGo_cancel waitOk down plen hd k0 hwlt hk0 (plen + 1) 0 0 []
      (by omega) (by simpa using hlt) (by omega)
    simpa [rateLimitedWrite] using h

/-- Fixture: a downstream writer that accepts every chunk in full. -/
def fullDown : Nat → Nat → Nat × Option String := fun _ c => (c, none)

/-- Fixture: limiter waits that admit only the first two chunks and then
fail (the context is cancelled). -/
def waitFirstTwo : Nat → Bool := fun k => decide (k < 2)

/-- Witness for `rateLimitedWriter_write_spec` on a 40000-byte buffer:
with all waits admitted the chunks are `16384, 16384, 7232`; with the
third wait cancelled, 32768 bytes were written before the failing wait
and the call returns them with the cancellation error. -/
theorem rateLimitedWriter_write_spec_witness :
    (∀ k c, fullDown k c = (c, none))
    ∧ rateLimitedWrite true (fun _ => true) fullDown 40000
        = some ⟨40000, none, chunkSizes 40000⟩
    ∧ chunkSizes 40000 = [16384, 16384, 7232]
    ∧ (waitFirstTwo 2 = false ∧ chunkCap * 2 < 40000)
    ∧ rateLimitedWrite true waitFirstTwo fullDown 40000
        = some ⟨chunkCap * 2, some "context canceled",
                List.replicate 2 chunkCap⟩ :=
  ⟨fun _ _ => rfl,
    ((rateLimitedWriter_write_spec (fun _ => true) fullDown 40000
      (fun _ _ => rfl)).2.1 (fun _ => rfl)).1,
    by decide,
    ⟨by decide, by decide⟩,
    (rateLimitedWriter_write_spec waitFirstTwo fullDown 40000
      (fun _ _ => rfl)).2.2 2 (by decide) (by decide) (by decide)⟩

/-! ## Bandwidth limit parser: `parseBandwidthLimit` (src/main.go lines 219-265)

```go
func parseBandwidthLimit(limit string) (int64, error) {
    if limit == "" { return 0, nil }
    limit = strings.TrimSuffix(strings.ToUpper(limit), "/S")
    limit = strings.TrimSpace(limit)
    var numStr string
    var unit string
    for i, ch := range limit {
        if ch >= '0' && ch <= '9' || ch == '.' { continue }
        numStr = limit[:i]
        unit = limit[i:]
        break
    }
    if numStr == "" { numStr = limit }
    num, err := strconv.ParseFloat(numStr, 64)
    if err != nil { return 0, fmt.Errorf("invalid bandwidth limit: %s", limit) }
    multiplier := float64(1)
    switch strings.ToUpper(strings.TrimSpace(unit)) {
    case "G", "GB": multiplier = 1024 * 1024 * 1024
    case "M", "MB": multiplier = 1024 * 1024
    case "K", "KB": multiplier = 1024
    case "B", "":   multiplier = 1
    default: return 0, fmt.Errorf("unknown unit: %s", unit)
    }
    return int64(num * multiplier), nil
}
```

Strings are processed as their character lists.  `strconv.ParseFloat` and
the `float64` product are modelled with exact rational arithmetic: the
numeric strings that can reach `ParseFloat` here and succeed are an
optional sign followed by decimal digits with at most one dot (the special
forms `inf`/`nan` are also rejected overall, by the unit switch in Go and
by the numeric parse in this model), and for every such decimal with the
value and product representable in `float64`'s 53-bit precision —
in particular all the repository's own test vectors — the `float64`
computation agrees with the exact rational one.  `int64(x)` truncates
toward zero, modelled by `truncToZero`.  `strings.TrimSpace` trims Unicode
white space; the ASCII white-space characters are modelled. -/

/-- ASCII white space, for the `strings.TrimSpace` model. -/
def isSpaceChar (c : Char) : Bool :=
  c = ' ' || c = '\t' || c = '\n' || c = '\r'

/-- Model of `strings.TrimSpace` on a character list. -/
def trimSpaceList (cs : List Char) : List Char :=
  ((cs.dropWhile isSpaceChar).reverse.dropWhile isSpaceChar).reverse

/-- Model of `strings.ToUpper` on a character list. -/
def toUpperList (cs : List Char) : List Char := cs.map Char.toUpper

/-- Model of `strings.TrimSuffix(s, "/S")`. -/
def trimSuffixSlashS (cs : List Char) : List Char :=
  if 2 ≤ cs.length ∧ cs.drop (cs.length - 2) = ['/', 'S'] then
    cs.take (cs.length - 2)
  else cs

/-- The Go scan condition `ch >= '0' && ch <= '9' || ch == '.'`. -/
def isDigitOrDot (c : Char) : Bool :=
  ('0' ≤ c && c ≤ '9') || c = '.'

/-- The numeric/unit split loop: `numStr` is the longest prefix of
digits-and-dots and `unit` the rest; if the loop never breaks (`unit`
would stay empty) or breaks at index 0 (`numStr` would stay empty),
`numStr` falls back to the whole string (the `if numStr == ""` fix-up),
with `unit` keeping whatever the loop assigned. -/
def goScan (cs : List Char) : List Char × List Char :=
  match cs.span isDigitOrDot with
  | (pre, suf) =>
    if suf.isEmpty then (cs, [])
    else if pre.isEmpty then (cs, suf)
    else (pre, suf)

/-- Value of a digit string (most significant first). -/
def digitsVal (ds : List Char) : Nat :=
  ds.foldl (fun a c => 10 * a + (c.toNat - '0'.toNat)) 0

/-- Exact model of `strconv.ParseFloat` on an unsigned decimal numeral:
digits with at most one dot and at least one digit. -/
def parseUnsignedDecimal (cs : List Char) : Option ℚ :=
  match cs.span (fun c => '0' ≤ c && c ≤ '9') with
  | (ip, rest) =>
    match rest with
    | [] => if ip.isEmpty then none else some ((digitsVal ip : ℚ))
    | '.' :: fp =>
      if fp.all (fun c => '0' ≤ c && c ≤ '9') && (!ip.isEmpty || !fp.isEmpty) then
        some ((digitsVal ip : ℚ) + (digitsVal fp : ℚ) / 10 ^ fp.length)
      else none
    | _ => none

/-- Exact model of `strconv.ParseFloat` (optional sign + decimal). -/
def parseDecimal (cs : List Char) : Option ℚ :=
  match cs with
  | '+' :: rest => parseUnsignedDecimal rest
  | '-' :: rest => (parseUnsignedDecimal rest).map (fun q => -q)
  | _ => parseUnsignedDecimal cs

/-- The unit switch (on the trimmed, upper-cased unit). -/
def unitMultiplier (u : List Char) : Option Nat :=
  match u with
  | ['G'] => some (1024 * 1024 * 1024)
  | ['G', 'B'] => some (1024 * 1024 * 1024)
  | ['M'] => some (1024 * 1024)
  | ['M', 'B'] => some (1024 * 1024)
  | ['K'] => some 1024
  | ['K', 'B'] => some 1024
  | ['B'] => some 1
  | [] => some 1
  | _ => none

/-- Go's `int64(x)` conversion from a real value: truncation toward zero. -/
def truncToZero (q : ℚ) : Int := if 0 ≤ q then ⌊q⌋ else -⌊-q⌋

/-- Function `parseBandwidthLimit`, returning the byte-per-second limit or the Go
error message. -/
def parseBandwidthLimit (s : String) : Except String Int :=
  if s = "" then .ok 0
  else
    let cs := trimSpaceList (trimSuffixSlashS (toUpperList s.data))
    match goScan cs with
    | (numStr, unit) =>
      match parseDecimal numStr with
      | none => .error ("invalid bandwidth limit: " ++ String.mk cs)
      | some q =>
        match unitMultiplier (toUpperList (trimSpaceList unit)) with
        | none => .error ("unknown unit: " ++ String.mk unit)
        | some m => .ok (truncToZero (q * m))

theorem takeWhile_all_append {α : Type} (p : α → Bool) (num rest : List α)
    (hnum : ∀ c ∈ num, p c = true)
    (hrest : rest.head?.all (fun c => !p c) = true) :
    (num ++ rest).takeWhile p = num ∧ (num ++ rest).dropWhile p = rest := by
  induction num with
  | nil =>
    simp only [List.nil_append]
    cases rest with
    | nil => simp
    | cons c t =>
      have hc : p c = false := by simpa using hrest
      simp [List.takeWhile_cons, List.dropWhile_cons, hc]
  | cons a num' ih =>
    have ha : p a = true := hnum a (by simp)
    have ih' := ih (fun c hc => hnum c (by simp [hc]))
    simp [List.takeWhile_cons, List.dropWhile_cons, ha, ih'.1, ih'.2]

theorem goScan_split (num unit : List Char) (hne : num ≠ [])
    (hnum : ∀ c ∈ num, isDigitOrDot c = true)
    (hunit : unit.head?.all (fun c => !isDigitOrDot c) = true) :
    goScan (num ++ unit) = (num, unit) := by
  have h := takeWhile_all_append isDigitOrDot num unit hnum hunit
  unfold goScan
  rw [List.span_eq_take_drop, h.1, h.2]
  cases unit with
  | nil => simp
  | cons c t =>
    obtain ⟨a, num', rfl⟩ : ∃ a num', num = a :: num' :=
      ⟨num.head (by simpa using hne), num.tail, by
        cases num with
        | nil => exact absurd rfl hne
        | cons x xs => rfl⟩
    simp [List.isEmpty]

theorem toUpperList_append_right (num unit : List Char)
    (h : toUpperList (num ++ unit) = num ++ unit) : toUpperList unit = unit := by
  unfold toUpperList at *
  rw [List.map_append] at h
  exact (List.append_inj h (by simp)).2

/-- C10. The bandwidth-limit parser: the empty string yields 0
(unlimited) without error, and for every input that decomposes as a
decimal numeral (digits with at most one dot — in particular fractional
numbers such as `1.5M`) followed by a recognised unit, the result is the
numeral's value times the base-1024 unit multiplier, truncated toward zero
to an integer byte count.  (The normalisation hypotheses state that the
input is already upper-case with no `/S` suffix and no surrounding white
space, so the pre-processing pipeline leaves it unchanged.) -/
theorem parseBandwidthLimit_spec :
    (parseBandwidthLimit "" = .ok 0)
    ∧ (∀ (num unit : List Char) (q : ℚ) (m : Nat),
        num ≠ [] →
        (∀ c ∈ num, isDigitOrDot c = true) →
        parseDecimal num = some q →
        unit.head?.all (fun c => !isDigitOrDot c) = true →
        unitMultiplier unit = some m →
        toUpperList (num ++ unit) = num ++ unit →
        trimSuffixSlashS (num ++ unit) = num ++ unit →
        trimSpaceList (num ++ unit) = num ++ unit →
        trimSpaceList unit = unit →
        parseBandwidthLimit (String.mk (num ++ unit))
          = .ok (truncToZero (q * m))) := by
  constructor
  · rfl
  · intro num unit q m hne hnum hq hhead hm hupper hsuffix hspace hspaceu
    have hsne : String.mk (num ++ unit) ≠ "" := by
      simp only [ne_eq, String.ext_iff]
      simpa using fun h _ => hne h
    have hdata : (String.mk (num ++ unit)).data = num ++ unit := rfl
    have huu : toUpperList unit = unit := toUpperList_append_right num unit hupper
    simp only [parseBandwidthLimit, if_neg hsne, hdata, hupper, hsuffix, hspace,
      goScan_split num unit hne hnum hhead, hq, hspaceu, huu, hm]

/-- Witness for `parseBandwidthLimit_spec` at the repository's own test
vector `"1.5M"`: the fractional numeral `1.5` with unit `M` yields
`⌊1.5 × 1024²⌋ = 1572864` bytes per second. -/
theorem parseBandwidthLimit_spec_witness :
    (parseDecimal ['1', '.', '5'] = some ((3 : ℚ) / 2)
      ∧ unitMultiplier ['M'] = some 1048576)
    ∧ parseBandwidthLimit (String.mk (['1', '.', '5'] ++ ['M']))
        = .ok (truncToZero ((3 : ℚ) / 2 * 1048576))
    ∧ truncToZero ((3 : ℚ) / 2 * 1048576) = 1572864 := by
  have hq : parseDecimal ['1', '.', '5'] = some ((3 : ℚ) / 2) := by
    have h : parseDecimal ['1', '.', '5']
        = some ((digitsVal ['1'] : ℚ) + (digitsVal ['5'] : ℚ) / 10 ^ ['5'].length) := rfl
    have d1 : digitsVal ['1'] = 1 := rfl
    have d5 : digitsVal ['5'] = 5 := rfl
    rw [h, d1, d5]
    norm_num
  refine ⟨⟨hq, rfl⟩, ?_, by norm_num [truncToZero]⟩
  exact parseBandwidthLimit_spec.2 ['1', '.', '5'] ['M'] ((3 : ℚ) / 2) 1048576
    (by decide) (by decide) hq (by decide) rfl rfl (by decide) rfl rfl

end DL
